import Mathlib

/-!
Verification development for the financial_research_report repository.

The embedded code:
* `src/marco/frameworks/pocketflow/__init__.py` — the Node/Flow orchestration
  engine (lifecycle, successor lookup, retry, parameter isolation, async guard);
* `src/industry_workflow.py` — the industry decision loop's nodes
  (`IndustryResearchFlow`, `SearchInfo`, `GenerateSection`) and its YAML-block
  extraction;
* `src/macro_workflow.py` — the macro decision node's (uncaught) YAML-block
  extraction;
* `src/run_marco_research_report.py` — `MacroResearchFlow.exec`'s cap /
  coverage predecision and its override of the LLM answer.

Python strings are modelled as `String` / `List Char` (code points, as in
Python); Python string methods used by the code (`split`, `strip`, `lower`,
substring `in`) are re-implemented below by structural recursion so that every
definition evaluates by kernel reduction.  Python dictionaries that only ever
hold fixed keys are modelled as structures; exceptions as `Except`; the
orchestration loop (a `while` with no bound) as fuel-indexed recursion.
-/

namespace Spec2Proof

/-! ### Python string primitives (structural, kernel-reducible) -/

/-- Python `str.lower`, modelled on the ASCII range (identity elsewhere; every
character the embedded code lowers outside ASCII is CJK and has no case). -/
def lowerChar (c : Char) : Char :=
  if 'A' ≤ c ∧ c ≤ 'Z' then Char.ofNat (c.toNat + 32) else c

/-- Lowercase a code-point list. -/
def lowerL (s : List Char) : List Char := s.map lowerChar

/-- Drop `sep` from the front of `s`, when `s` starts with it. -/
def matchDrop : List Char → List Char → Option (List Char)
  | [], s => some s
  | _ :: _, [] => none
  | c :: cs, d :: ds => if c = d then matchDrop cs ds else none

/-- Python `needle in hay` (substring test). -/
def containsSubL (needle : List Char) : List Char → Bool
  | [] => needle.isEmpty
  | c :: rest => (matchDrop needle (c :: rest)).isSome || containsSubL needle rest

/-- Split `s` at the first occurrence of `sep`: `some (before, after)`, or
`none` when `sep` does not occur. -/
def splitFirst (sep : List Char) : List Char → Option (List Char × List Char)
  | [] => if sep.isEmpty then some ([], []) else none
  | c :: rest =>
    match matchDrop sep (c :: rest) with
    | some tail => some ([], tail)
    | none => (splitFirst sep rest).map (fun pr => (c :: pr.1, pr.2))

/-- Python `s.split(sep)[0]` / `s.split(sep, 1)[0]`: the part before the first
occurrence of `sep` (all of `s` when `sep` does not occur). -/
def beforeFirst (sep s : List Char) : List Char :=
  match splitFirst sep s with
  | some pr => pr.1
  | none => s

/-- Python `s.split(sep)`, with fuel for kernel-reducible recursion (the
wrapper always supplies more fuel than there can be separator occurrences). -/
def splitOnFuel (sep : List Char) : Nat → List Char → List (List Char)
  | 0, s => [s]
  | fuel + 1, s =>
    match splitFirst sep s with
    | none => [s]
    | some pr => pr.1 :: splitOnFuel sep fuel pr.2

/-- Python `s.split(sep)` for a non-empty separator. -/
def pySplit (s sep : List Char) : List (List Char) :=
  splitOnFuel sep (s.length + 1) s

/-- Python `s.strip()` (whitespace from both ends). -/
def stripL (s : List Char) : List Char :=
  ((s.dropWhile Char.isWhitespace).reverse.dropWhile Char.isWhitespace).reverse

/-! ### PocketFlow engine
(`src/marco/frameworks/pocketflow/__init__.py`)

Node templates carry the two things the orchestrator consults: the node's
lifecycle `run` (Python `_run`: prep, exec-with-retry, post — collapsed here
to a function of the node's current `params` and the shared state, returning
the new shared state and the action label `post` returns, or the exception it
raises) and its registered successor map.  A Python successor dict maps action
strings to node objects; registered nodes are identified by indices into a
template table `g`, and `copy.copy` shares the successor dict between a node
and its copies, so successor targets are template indices.  The object heap
(`OrchSt.heap`) gives each object identifier its current `params` attribute;
object identifiers below `nextId` exist, `copy.copy` allocates `nextId`. -/

/-- Python `action or "default"` in `Flow.get_next_node`: `None` and the empty
string (the falsy strings) fall back to the sentinel `"default"`. -/
def actionKey : Option String → String
  | none => "default"
  | some s => if s = "" then "default" else s

/-- Dict lookup `curr.successors.get(key)` on a successor map. -/
def lookupSucc (succ : List (String × Nat)) (key : String) : Option Nat :=
  (succ.find? (fun pr => pr.1 = key)).map (fun pr => pr.2)

/-- A Python exception escaping a node's `_run`. -/
inductive RunErr where
  | runtimeError (msg : String)
  | exc (msg : String)
deriving DecidableEq, Repr

/-- A registered node as the orchestrator sees it. -/
structure NodeTmpl (σ P : Type) where
  run : P → σ → Except RunErr (σ × Option String)
  successors : List (String × Nat)

/-- `Flow.get_next_node`: the successor for the (defaulted) action label, and
whether the `Flow ends: ... not found` warning is emitted (`not nxt and
curr.successors`). -/
def get_next_node (nd : NodeTmpl σ P) (action : Option String) : Option Nat × Bool :=
  let nxt := lookupSucc nd.successors (actionKey action)
  (nxt, nxt.isNone && !nd.successors.isEmpty)

/-- The mutable state `Flow._orch` threads: the shared store, the object heap
of `params` attributes, and the next fresh object identifier. -/
structure OrchSt (σ P : Type) where
  shared : σ
  heap : Nat → P
  nextId : Nat

/-- `node.set_params(p)`: rebind the `params` attribute of object `obj`. -/
def setParams (st : OrchSt σ P) (obj : Nat) (p : P) : OrchSt σ P :=
  { st with heap := Function.update st.heap obj p }

/-- `copy.copy(node)`: allocate a fresh object whose `params` attribute starts
as the copied object's (the successor map is shared, so it stays in the
template).  The fresh identifier is `st.nextId`. -/
def copyNode (st : OrchSt σ P) (orig : Nat) : OrchSt σ P :=
  { st with heap := Function.update st.heap st.nextId (st.heap orig),
            nextId := st.nextId + 1 }

/-- The orchestration state after one loop body on object `obj`:
`curr.set_params(p)` then `curr._run(shared)` yielding new shared state `sh`. -/
def afterRun (st : OrchSt σ P) (obj : Nat) (p : P) (sh : σ) : OrchSt σ P :=
  { setParams st obj p with shared := sh }

/-- `Flow._orch`'s `while curr:` loop.  `curr` is the current copy's object
identifier paired with its template index; `last` is `last_action`.  `none`
models non-termination within the given fuel; `some (.error e)` an exception
propagating out of a node's `_run`; `some (.ok (st, a))` the loop returning
`last_action = a`.  When `get_next_node` finds no successor, `copy.copy(None)`
is `None` and the loop exits returning the action just produced. -/
def orchAux (g : Nat → Option (NodeTmpl σ P)) (p : P) :
    Nat → Option (Nat × Nat) → OrchSt σ P → Option String →
    Option (Except RunErr (OrchSt σ P × Option String))
  | _, none, st, last => some (.ok (st, last))
  | 0, some _, _, _ => none
  | fuel + 1, some (obj, tmpl), st, _ =>
    match g tmpl with
    | none => none
    | some nd =>
      let st1 := setParams st obj p
      match nd.run (st1.heap obj) st1.shared with
      | .error e => some (.error e)
      | .ok (sh, a) =>
        let st2 := afterRun st obj p sh
        match lookupSucc nd.successors (actionKey a) with
        | none => some (.ok (st2, a))
        | some t =>
          orchAux g p fuel (some (st2.nextId, t)) (copyNode st2 t) a

/-- `Flow._orch`: `curr = copy.copy(self.start_node)`; with no start node the
loop body never runs and `last_action` is `None`. -/
def orch (g : Nat → Option (NodeTmpl σ P)) (start : Option Nat) (p : P)
    (fuel : Nat) (st : OrchSt σ P) :
    Option (Except RunErr (OrchSt σ P × Option String)) :=
  match start with
  | none => some (.ok (st, none))
  | some t0 => orchAux g p fuel (some (st.nextId, t0)) (copyNode st t0) none

/-- `AsyncNode._run`: `raise RuntimeError("Use run_async.")`. -/
def AsyncNode_run (_shared : σ) : Except RunErr (σ × Option String) :=
  .error (.runtimeError "Use run_async.")

/-- An `AsyncNode` registered in a synchronous flow: its `_run` ignores params
and shared state and raises. -/
def asyncNodeTmpl (succ : List (String × Nat)) : NodeTmpl σ P :=
  { run := fun _ sh => AsyncNode_run sh, successors := succ }

/-- The claim C1 property, written from the spec: a flow run from object
`obj` of template `tmpl` continues exactly while the node's returned action
label has a registered successor, and stops at the first label with none,
returning that label. -/
inductive FlowRun (g : Nat → Option (NodeTmpl σ P)) (p : P) :
    Nat → Nat → OrchSt σ P → OrchSt σ P → Option String → Prop where
  | stop : ∀ {obj tmpl : Nat} {st : OrchSt σ P} {nd : NodeTmpl σ P} {sh : σ}
      {a : Option String},
      g tmpl = some nd →
      nd.run ((setParams st obj p).heap obj) (setParams st obj p).shared = .ok (sh, a) →
      lookupSucc nd.successors (actionKey a) = none →
      FlowRun g p obj tmpl st (afterRun st obj p sh) a
  | step : ∀ {obj tmpl : Nat} {st : OrchSt σ P} {nd : NodeTmpl σ P} {sh : σ}
      {a : Option String} {t : Nat} {st' : OrchSt σ P} {a' : Option String},
      g tmpl = some nd →
      nd.run ((setParams st obj p).heap obj) (setParams st obj p).shared = .ok (sh, a) →
      lookupSucc nd.successors (actionKey a) = some t →
      FlowRun g p (afterRun st obj p sh).nextId t (copyNode (afterRun st obj p sh) t) st' a' →
      FlowRun g p obj tmpl st st' a'

/-! ### Node retry discipline
(`Node._exec`, `Node.exec_fallback`, `BaseNode._run`)

The attempt results are indexed by the retry counter (`self.cur_retry`), so a
node whose `exec` can fail differently on different attempts is represented
faithfully; within one attempt `exec` is a function of the prep result alone,
as in the source, where `_exec(prep_res)` receives only `prep_res`.  The
lifecycle emits a trace of the observable calls. -/

/-- One observable call in a node lifecycle. -/
inductive NodeEv (π : Type) where
  | prepCall
  | execCall (p : π) (attempt : Nat)
  | sleepCall (secs : Nat)
  | fallbackCall (p : π)
  | postCall (p : π)
deriving DecidableEq, Repr

/-- Whether an event is the prep call. -/
def NodeEv.isPrep : NodeEv π → Bool
  | .prepCall => true
  | .execCall _ _ => false
  | .sleepCall _ => false
  | .fallbackCall _ => false
  | .postCall _ => false

/-- Whether an event is an exec attempt. -/
def NodeEv.isExec : NodeEv π → Bool
  | .prepCall => false
  | .execCall _ _ => true
  | .sleepCall _ => false
  | .fallbackCall _ => false
  | .postCall _ => false

/-- Whether an event is the fallback call. -/
def NodeEv.isFallback : NodeEv π → Bool
  | .prepCall => false
  | .execCall _ _ => false
  | .sleepCall _ => false
  | .fallbackCall _ => true
  | .postCall _ => false

/-- Whether an event is the post call. -/
def NodeEv.isPost : NodeEv π → Bool
  | .prepCall => false
  | .execCall _ _ => false
  | .sleepCall _ => false
  | .fallbackCall _ => false
  | .postCall _ => true

/-- `Node.exec_fallback`'s default body: `raise exc`. -/
def exec_fallback_default (_p : π) (e : E) : Except E α := .error e

/-- `Node._exec`'s retry loop, from attempt index `i` with `rem` loop
iterations left (`i + rem = max_retries`).  Falling off the loop end (only
possible when `max_retries = 0`) returns Python `None`, modelled `.ok none`;
on the last attempt's failure the fallback's value is returned instead of a
further exec call; between consecutive attempts `time.sleep(wait)` runs when
`wait > 0`. -/
def execRetryAux (execf : π → Nat → Except E α) (fb : π → E → Except E α)
    (wait : Nat) (p : π) : Nat → Nat → List (NodeEv π) × Except E (Option α)
  | _, 0 => ([], .ok none)
  | i, rem + 1 =>
    match execf p i with
    | .ok a => ([.execCall p i], .ok (some a))
    | .error e =>
      if rem = 0 then
        ([.execCall p i, .fallbackCall p], (fb p e).map some)
      else
        let hd := if wait > 0 then [NodeEv.execCall p i, NodeEv.sleepCall wait]
                  else [NodeEv.execCall p i]
        let tl := execRetryAux execf fb wait p (i + 1) rem
        (hd ++ tl.1, tl.2)

/-- `Node._exec(prep_res)`: the retry loop from attempt 0. -/
def Node_exec (execf : π → Nat → Except E α) (fb : π → E → Except E α)
    (max_retries wait : Nat) (p : π) : List (NodeEv π) × Except E (Option α) :=
  execRetryAux execf fb wait p 0 max_retries

/-- `BaseNode._run`: `p = prep(shared); e = _exec(p); return post(shared, p, e)`.
When `_exec` raises (retries exhausted and the fallback re-raises), the
exception propagates and `post` is not reached. -/
def Node_run (prep : σ → π) (execf : π → Nat → Except E α)
    (fb : π → E → Except E α) (post : σ → π → Option α → Option String)
    (max_retries wait : Nat) (s : σ) : List (NodeEv π) × Except E (Option String) :=
  let p := prep s
  let r := Node_exec execf fb max_retries wait p
  match r.2 with
  | .error e => (NodeEv.prepCall :: r.1, .error e)
  | .ok v => (NodeEv.prepCall :: (r.1 ++ [NodeEv.postCall p]), .ok (post s p v))

/-- The call trace the retry loop produces from attempt `i` with `rem`
attempts remaining when every attempt fails: each attempt's exec call,
`time.sleep(wait)` between consecutive attempts when `wait > 0`, and the one
fallback call right after the last attempt. -/
def failTrace (p : π) (wait : Nat) : Nat → Nat → List (NodeEv π)
  | _, 0 => []
  | i, 1 => [.execCall p i, .fallbackCall p]
  | i, rem + 2 =>
    (if wait > 0 then [NodeEv.execCall p i, NodeEv.sleepCall wait]
     else [NodeEv.execCall p i]) ++ failTrace p wait (i + 1) (rem + 1)

/-! ### Industry workflow nodes (`src/industry_workflow.py`) -/

/-- One generated report section, `{"name": ..., "content": ...}`. -/
structure ReportSection where
  name : String
  content : String
deriving DecidableEq, Repr

/-- `GenerateSection.post`: read the produced-section list, reject the new
section when its name is already present, otherwise append it; either way the
returned action label is `"continue"`. -/
def GenerateSection_post (sections : List ReportSection) (execRes : ReportSection) :
    List ReportSection × String :=
  if execRes.name ∈ sections.map ReportSection.name then (sections, "continue")
  else (sections ++ [execRes], "continue")

/-- The produced-section list over a whole run: every mutation of
`shared["generated_sections"]` goes through `GenerateSection.post`, so a run
that serves the PRODUCE requests `reqs` in order folds that step. -/
def produceRun (s0 : List ReportSection) (reqs : List ReportSection) : List ReportSection :=
  reqs.foldl (fun acc r => (GenerateSection_post acc r).1) s0

/-- One entry of `SearchInfo.exec`'s result list:
`{"term": term, "results": results}`. -/
structure SearchBatch (β : Type) where
  term : String
  results : List β
deriving DecidableEq, Repr

/-- One observable call of the retrieval node. -/
inductive SearchEv where
  | searchCall (term : String)
  | sleepCall (secs : Nat)
deriving DecidableEq, Repr

/-- `SearchInfo.exec`: call `search_web` once per term in list order,
`time.sleep(15)` after each call, and collect one batch entry per term.  The
retriever is the abstract external interface `retr`. -/
def SearchInfo_exec (retr : String → List β) :
    List String → List SearchEv × List (SearchBatch β)
  | [] => ([], [])
  | t :: ts =>
    let rest := SearchInfo_exec retr ts
    (SearchEv.searchCall t :: SearchEv.sleepCall 15 :: rest.1,
     ⟨t, retr t⟩ :: rest.2)

/-- `SearchInfo.post`: extend `shared["context"]` with the batch list and
return the `"search_done"` action. -/
def SearchInfo_post (context execRes : List (SearchBatch β)) :
    List (SearchBatch β) × String :=
  (context ++ execRes, "search_done")

/-- The node indices of the industry workflow graph as wired in
`industry_workflow.py.__main__`: research 0, search 1, generate 2, complete 3. -/
def industryResearchSucc : List (String × Nat) :=
  [("search", 1), ("generate", 2), ("complete", 3)]

/-- Successor map of the `SearchInfo` node: `search - "search_done" >> research`. -/
def industrySearchSucc : List (String × Nat) := [("search_done", 0)]

/-- Successor map of the `GenerateSection` node: `generate - "continue" >> research`. -/
def industryGenerateSucc : List (String × Nat) := [("continue", 0)]

/-! ### Oracle-answer parsing (C6)

`IndustryResearchFlow.exec` (industry_workflow.py) extracts
`resp.split("```yaml")[1].split("```", 1)[0].strip()` and runs
`yaml.safe_load` on it inside `try/except`, substituting the default
`{"action": "complete", "reason": "解析失败，默认完成"}` dict when either
raises; the homonymous node in `macro_workflow.py` runs the same two lines
with no `try`, so a response without a `"```yaml"` fence raises `IndexError`
and a bad block raises the loader's error.  In both controllers the next two
statements — `result['action']` and `result['reason']` (industry_workflow.py
lines 110-111, macro_workflow.py lines 58-59) — are OUTSIDE any `try`: a
block that loads successfully to `None` (e.g. an empty fenced block) or to a
non-mapping value raises an uncaught `TypeError` there, and a mapping missing
one of the keys raises `KeyError`.  The loader itself is external (PyYAML):
it is the abstract parameter `parseYaml`, `none` meaning `yaml.safe_load`
raised, `some v` the value it returned. -/

/-- A parsed Oracle decision (the keys the controllers read). -/
structure Decision where
  action : String
  reason : String
deriving DecidableEq, Repr

/-- A Python exception from the decision step's parse pipeline. -/
inductive ParseErr where
  | indexError
  | yamlError
  | typeError
  | keyError
deriving DecidableEq, Repr

/-- What `yaml.safe_load` hands back when it does not raise, as the decision
step consumes it: Python `None` (the load of an empty document), a non-mapping
value, or a mapping.  Mapping values are modelled as strings: the decision
step only formats and compares the values it reads, so a value's own type
never raises — the error paths are subscripting `None` or a non-mapping
(`TypeError`) and a missing key (`KeyError`). -/
inductive YamlVal where
  | scalarNone
  | scalar (s : String)
  | mapping (entries : List (String × String))
deriving DecidableEq, Repr

/-- Python `value[key]` on a loaded YAML value: `TypeError` when the value is
`None` or not a mapping, `KeyError` when the key is absent. -/
def pySubscript : YamlVal → String → Except ParseErr String
  | .scalarNone, _ => .error .typeError
  | .scalar _, _ => .error .typeError
  | .mapping entries, key =>
    match entries.find? (fun pr => pr.1 = key) with
    | some pr => .ok pr.2
    | none => .error .keyError

/-- The two subscripts both controllers run on the loaded value right after
the parse — `result['action']` then `result['reason']` — with the first
exception propagating; on a mapping holding both keys the decision is read
off. -/
def readDecision (v : YamlVal) : Except ParseErr Decision :=
  match pySubscript v "action" with
  | .error e => .error e
  | .ok action =>
    match pySubscript v "reason" with
    | .error e => .error e
    | .ok reason => .ok ⟨action, reason⟩

/-- `resp.split("```yaml")[1].split("```", 1)[0].strip()`: `none` models the
`IndexError` when no `"```yaml"` fence occurs in the response. -/
def extractYamlBlock (resp : String) : Option String :=
  match pySplit resp.toList "```yaml".toList with
  | _ :: second :: _ => some (String.mk (stripL (beforeFirst "```".toList second)))
  | _ => none

/-- The default dict the industry controller's `except` branch substitutes. -/
def industryDefault : YamlVal :=
  .mapping [("action", "complete"), ("reason", "解析失败，默认完成")]

/-- One iteration of `IndustryResearchFlow.exec`'s decision step on one
Oracle response (industry workflow): extraction and `yaml.safe_load` run
inside `try/except` with the default complete dict substituted on any
exception there, but the `result['action']`/`result['reason']` subscripts run
after the `except` block, so their `TypeError`/`KeyError` propagates out of
the run. -/
def industryDecision (parseYaml : String → Option YamlVal) (resp : String) :
    Except ParseErr Decision :=
  let result : YamlVal :=
    match extractYamlBlock resp with
    | none => industryDefault
    | some block =>
      match parseYaml block with
      | none => industryDefault
      | some v => v
  readDecision result

/-- The macro workflow's decision step on one Oracle response: the same
pipeline with no `try/except`, so extraction and loader failures raise too,
before the same subscripts run. -/
def macroDecision (parseYaml : String → Option YamlVal) (resp : String) :
    Except ParseErr Decision :=
  match extractYamlBlock resp with
  | none => .error .indexError
  | some block =>
    match parseYaml block with
    | none => .error .yamlError
    | some v => readDecision v

/-! ### Macro report cap override (C5)
(`MacroResearchFlow.exec` in `src/run_marco_research_report.py`)

`covered_types` appends, per generated section name, each of the four
standard category labels whose keyword list matches the lowercased name as a
substring, then deduplicates via `list(set(...))`; only its length is used.
`coverage_ratio >= 0.75` with the four categories is exactly
`len(covered_types) >= 3` (the quotients of 0..4 by 4 and 0.75 are exact
binary floats). -/

/-- `covered_types` before `list(set(...))`: the category labels matched by
each generated section name, in scan order. -/
def macroCoveredRaw (names : List String) : List String :=
  names.flatMap (fun name =>
    let l := lowerL name.toList
    (if ["宏观", "经济", "gdp"].any (fun t => containsSubL (lowerL t.toList) l)
      then ["宏观经济"] else []) ++
    (if ["政策", "监管"].any (fun t => containsSubL (lowerL t.toList) l)
      then ["政策分析"] else []) ++
    (if ["行业", "影响", "投资"].any (fun t => containsSubL (lowerL t.toList) l)
      then ["行业影响"] else []) ++
    (if ["风险", "预测", "展望"].any (fun t => containsSubL (lowerL t.toList) l)
      then ["风险预测"] else []))

/-- `covered_types = list(set(covered_types))`. -/
def macroCoveredTypes (names : List String) : List String :=
  (macroCoveredRaw names).dedup

/-- `max_sections = 6`, the configured cap on produced sections. -/
def macroMaxSections : Nat := 6

/-- The predecision of `MacroResearchFlow.exec`: `"complete"` once the cap is
reached, else `"complete"` once at least 3 of the 4 standard category types
are covered, else none. -/
def macroPredecision (names : List String) : Option String :=
  if names.length ≥ macroMaxSections then some "complete"
  else if (macroCoveredTypes names).length ≥ 3 then some "complete"
  else none

/-- The override at the end of `MacroResearchFlow.exec`: the LLM's action is
forced to `"complete"` when the predecision is `"complete"`, the action is
`"generate"`, and the section count has reached the cap; otherwise the LLM's
action stands. -/
def macroResolveAction (names : List String) (action : String) : String :=
  if macroPredecision names = some "complete" ∧ action = "generate" ∧
      names.length ≥ macroMaxSections
  then "complete" else action

/-! ## Theorems -/

/-- `isPrep` on the prep event. -/
lemma isPrep_prep : (NodeEv.prepCall : NodeEv π).isPrep = true := rfl

/-- `isPrep` on an exec event. -/
lemma isPrep_exec (q : π) (j : Nat) : (NodeEv.execCall q j).isPrep = false := rfl

/-- `isPrep` on a sleep event. -/
lemma isPrep_sleep (w : Nat) : (NodeEv.sleepCall w : NodeEv π).isPrep = false := rfl

/-- `isPrep` on a fallback event. -/
lemma isPrep_fallback (q : π) : (NodeEv.fallbackCall q).isPrep = false := rfl

/-- `isPrep` on a post event. -/
lemma isPrep_post (q : π) : (NodeEv.postCall q).isPrep = false := rfl

/-- `isExec` on the prep event. -/
lemma isExec_prep : (NodeEv.prepCall : NodeEv π).isExec = false := rfl

/-- `isExec` on an exec event. -/
lemma isExec_exec (q : π) (j : Nat) : (NodeEv.execCall q j).isExec = true := rfl

/-- `isExec` on a sleep event. -/
lemma isExec_sleep (w : Nat) : (NodeEv.sleepCall w : NodeEv π).isExec = false := rfl

/-- `isExec` on a fallback event. -/
lemma isExec_fallback (q : π) : (NodeEv.fallbackCall q).isExec = false := rfl

/-- `isExec` on a post event. -/
lemma isExec_post (q : π) : (NodeEv.postCall q).isExec = false := rfl

/-- `isFallback` on the prep event. -/
lemma isFallback_prep : (NodeEv.prepCall : NodeEv π).isFallback = false := rfl

/-- `isFallback` on an exec event. -/
lemma isFallback_exec (q : π) (j : Nat) : (NodeEv.execCall q j).isFallback = false := rfl

/-- `isFallback` on a sleep event. -/
lemma isFallback_sleep (w : Nat) : (NodeEv.sleepCall w : NodeEv π).isFallback = false := rfl

/-- `isFallback` on a fallback event. -/
lemma isFallback_fallback (q : π) : (NodeEv.fallbackCall q).isFallback = true := rfl

/-- `isFallback` on a post event. -/
lemma isFallback_post (q : π) : (NodeEv.postCall q).isFallback = false := rfl

/-- `isPost` on the prep event. -/
lemma isPost_prep : (NodeEv.prepCall : NodeEv π).isPost = false := rfl

/-- `isPost` on an exec event. -/
lemma isPost_exec (q : π) (j : Nat) : (NodeEv.execCall q j).isPost = false := rfl

/-- `isPost` on a sleep event. -/
lemma isPost_sleep (w : Nat) : (NodeEv.sleepCall w : NodeEv π).isPost = false := rfl

/-- `isPost` on a fallback event. -/
lemma isPost_fallback (q : π) : (NodeEv.fallbackCall q).isPost = false := rfl

/-- `isPost` on a post event. -/
lemma isPost_post (q : π) : (NodeEv.postCall q).isPost = true := rfl

/-- Appending a section adds exactly its name to the name list. -/
lemma map_name_append (sections : List ReportSection) (r : ReportSection) :
    (sections ++ [r]).map ReportSection.name
      = sections.map ReportSection.name ++ [r.name] := by
  simp

/-- One `GenerateSection.post` step keeps the name list duplicate-free. -/
lemma generateSection_post_nodup (sections : List ReportSection) (r : ReportSection)
    (h : (sections.map ReportSection.name).Nodup) :
    (((GenerateSection_post sections r).1).map ReportSection.name).Nodup := by
  unfold GenerateSection_post
  split
  · exact h
  · next hmem =>
    rw [map_name_append]
    exact h.append (List.nodup_singleton _)
      (fun a ha hb => by simp at hb; exact hmem (hb ▸ ha))

/-- One `GenerateSection.post` step only ever appends. -/
lemma generateSection_post_mono (sections : List ReportSection) (r : ReportSection) :
    sections <+: (GenerateSection_post sections r).1 := by
  unfold GenerateSection_post
  split
  · exact List.prefix_refl _
  · exact ⟨[r], rfl⟩

/-- C4.  A PRODUCE request whose name is already in the produced-name list
leaves the list untouched (so in particular its length never grows), one step
preserves duplicate-freedom and extends the list append-only, and over a whole
run (any request sequence folded through `GenerateSection.post`) the list
stays a duplicate-free, append-only extension of its start. -/
theorem c4_produced_names_idempotent_nodup_monotone :
    (∀ (sections : List ReportSection) (r : ReportSection),
        r.name ∈ sections.map ReportSection.name →
        GenerateSection_post sections r = (sections, "continue"))
    ∧ (∀ (sections : List ReportSection) (r : ReportSection),
        sections <+: (GenerateSection_post sections r).1)
    ∧ (∀ (sections : List ReportSection) (r : ReportSection),
        (sections.map ReportSection.name).Nodup →
        (((GenerateSection_post sections r).1).map ReportSection.name).Nodup)
    ∧ (∀ (s0 reqs : List ReportSection), s0 <+: produceRun s0 reqs)
    ∧ (∀ (s0 reqs : List ReportSection),
        (s0.map ReportSection.name).Nodup →
        ((produceRun s0 reqs).map ReportSection.name).Nodup) := by
  refine ⟨?_, generateSection_post_mono, generateSection_post_nodup, ?_, ?_⟩
  · intro sections r h
    unfold GenerateSection_post
    rw [if_pos h]
  · intro s0 reqs
    induction reqs generalizing s0 with
    | nil => exact List.prefix_refl _
    | cons r rs ih =>
      exact (generateSection_post_mono s0 r).trans (ih _)
  · intro s0 reqs h
    induction reqs generalizing s0 with
    | nil => exact h
    | cons r rs ih =>
      exact ih _ (generateSection_post_nodup s0 r h)

/-- C4 witness: with `"Intro"` already produced, re-producing it changes
nothing. -/
theorem c4_witness :
    GenerateSection_post [⟨"Intro", "text"⟩] ⟨"Intro", "other"⟩
      = ([⟨"Intro", "text"⟩], "continue") :=
  c4_produced_names_idempotent_nodup_monotone.1 [⟨"Intro", "text"⟩] ⟨"Intro", "other"⟩
    (by simp)

/-- C7.  For a GATHER decision with query terms `terms`, the retrieval node
calls the Retriever once per term in list order with the fixed 15-second
delay after each call, collects one batch entry per term holding everything
the Retriever returned for it (possibly nothing — no error case exists), its
post phase appends those batches to the context, and the returned
`"search_done"` action leads back to the decision node (index 0). -/
theorem c7_search_info_batches :
    ∀ (β : Type) (retr : String → List β) (terms : List String)
      (context : List (SearchBatch β)),
      (SearchInfo_exec retr terms).1
          = terms.flatMap (fun t => [SearchEv.searchCall t, SearchEv.sleepCall 15])
      ∧ (SearchInfo_exec retr terms).2 = terms.map (fun t => ⟨t, retr t⟩)
      ∧ SearchInfo_post context (SearchInfo_exec retr terms).2
          = (context ++ terms.map (fun t => ⟨t, retr t⟩), "search_done")
      ∧ lookupSucc industrySearchSucc "search_done" = some 0 := by
  intro β retr terms context
  have htrace : ∀ ts : List String,
      (SearchInfo_exec retr ts).1
        = ts.flatMap (fun t => [SearchEv.searchCall t, SearchEv.sleepCall 15])
      ∧ (SearchInfo_exec retr ts).2 = ts.map (fun t => ⟨t, retr t⟩) := by
    intro ts
    induction ts with
    | nil => exact ⟨rfl, rfl⟩
    | cons t ts ih =>
      refine ⟨?_, ?_⟩ <;> simp [SearchInfo_exec, ih.1, ih.2]
  refine ⟨(htrace terms).1, (htrace terms).2, ?_, rfl⟩
  rw [(htrace terms).2]
  rfl

/-- C5 counterexample: with the cap of 6 sections reached, a GATHER
(`"search"`) answer from the Oracle is not overridden, so the resolved action
is not FINISH. -/
theorem c5_counterexample_gather_not_forced :
    (["第一章", "第二章", "第三章", "第四章", "第五章", "第六章"] : List String).length
        = macroMaxSections
    ∧ macroResolveAction ["第一章", "第二章", "第三章", "第四章", "第五章", "第六章"]
        "search" = "search"
    ∧ ("search" : String) ≠ "complete" := by
  refine ⟨rfl, rfl, ?_⟩
  decide

/-- C5 as amended: once the section count reaches the cap, a PRODUCE
(`"generate"`) answer is forced to FINISH (`"complete"`) and a FINISH answer
stays FINISH, but any other answer — in particular GATHER (`"search"`) — is
left unchanged. -/
theorem c5_cap_forces_finish_on_generate (names : List String) (action : String)
    (hcap : macroMaxSections ≤ names.length) :
    macroResolveAction names "generate" = "complete"
    ∧ macroResolveAction names "complete" = "complete"
    ∧ (action ≠ "generate" → macroResolveAction names action = action) := by
  have hpre : macroPredecision names = some "complete" := by
    unfold macroPredecision
    rw [if_pos hcap]
  refine ⟨?_, ?_, ?_⟩
  · unfold macroResolveAction
    rw [if_pos ⟨hpre, rfl, hcap⟩]
  · unfold macroResolveAction
    rw [if_neg]
    rintro ⟨-, h, -⟩
    exact absurd h (by decide)
  · intro hne
    unfold macroResolveAction
    rw [if_neg]
    rintro ⟨-, h, -⟩
    exact hne h

/-- C5 witness: the amended behaviour at a concrete six-section state. -/
theorem c5_witness :
    macroResolveAction ["a", "b", "c", "d", "e", "f"] "generate" = "complete"
    ∧ macroResolveAction ["a", "b", "c", "d", "e", "f"] "complete" = "complete"
    ∧ (("search" : String) ≠ "generate" →
        macroResolveAction ["a", "b", "c", "d", "e", "f"] "search" = "search") :=
  c5_cap_forces_finish_on_generate ["a", "b", "c", "d", "e", "f"] "search" (by decide)

/-- C6 counterexample: on a response with no fenced YAML block the macro
workflow's decision step raises `IndexError`; and on a response whose fenced
block is empty — so `yaml.safe_load("")` returns `None` — even the industry
workflow's decision step raises `TypeError` at `result['action']`, which runs
after its `try/except`.  Both contradict the claim's "resolves to the
FINISH/complete action and raises no exception". -/
theorem c6_counterexample_decision_step_raises :
    extractYamlBlock "no fenced block here" = none
    ∧ macroDecision (fun _ => none) "no fenced block here" = .error .indexError
    ∧ extractYamlBlock "x```yaml\n```" = some ""
    ∧ industryDecision (fun b => if b = "" then some YamlVal.scalarNone else none)
        "x```yaml\n```" = .error .typeError :=
  ⟨rfl, rfl, rfl, rfl⟩

/-- C6 as amended.  On an Oracle response with no `"```yaml"` fence, or whose
fenced block makes the YAML loader raise, the industry controller substitutes
the default and its decision step resolves to the FINISH/complete decision
with no exception, while the macro controller raises the `IndexError` or the
loader's error to the caller; but on a response whose fenced block loads
successfully to `None`, to a non-mapping value, or to a mapping missing the
`action`/`reason` keys, both controllers raise the same
`TypeError`/`KeyError` from the subscripts that run outside the industry
controller's `try/except`. -/
theorem c6_malformed_answer_degrades :
    ∀ (parseYaml : String → Option YamlVal) (resp : String),
      ((extractYamlBlock resp = none
          ∨ ∃ b, extractYamlBlock resp = some b ∧ parseYaml b = none) →
        industryDecision parseYaml resp = .ok ⟨"complete", "解析失败，默认完成"⟩
        ∧ (macroDecision parseYaml resp = .error .indexError
          ∨ macroDecision parseYaml resp = .error .yamlError))
      ∧ (∀ b v e, extractYamlBlock resp = some b → parseYaml b = some v →
          readDecision v = .error e →
          industryDecision parseYaml resp = .error e
          ∧ macroDecision parseYaml resp = .error e) := by
  intro parseYaml resp
  constructor
  · intro h
    rcases h with h | ⟨b, hb, hp⟩
    · unfold industryDecision macroDecision
      rw [h]
      exact ⟨rfl, Or.inl rfl⟩
    · unfold industryDecision macroDecision
      rw [hb]
      simp only [hp]
      exact ⟨rfl, Or.inr trivial⟩
  · intro b v e hb hp hv
    unfold industryDecision macroDecision
    rw [hb]
    simp only [hp]
    exact ⟨hv, hv⟩

/-- C6 witness: both amended branches at concrete inputs — a fenceless
response degrades to complete (industry) and raises `IndexError` (macro); an
empty fenced block, loading to `None`, raises `TypeError` in both. -/
theorem c6_witness :
    (industryDecision (fun _ => none) "hello" = .ok ⟨"complete", "解析失败，默认完成"⟩
      ∧ (macroDecision (fun _ => none) "hello" = .error .indexError
        ∨ macroDecision (fun _ => none) "hello" = .error .yamlError))
    ∧ (industryDecision (fun b => if b = "" then some YamlVal.scalarNone else none)
          "x```yaml\n```" = .error .typeError
      ∧ macroDecision (fun b => if b = "" then some YamlVal.scalarNone else none)
          "x```yaml\n```" = .error .typeError) :=
  ⟨(c6_malformed_answer_degrades (fun _ => none) "hello").1 (Or.inl rfl),
   (c6_malformed_answer_degrades
      (fun b => if b = "" then some YamlVal.scalarNone else none) "x```yaml\n```").2
      "" YamlVal.scalarNone ParseErr.typeError rfl rfl rfl⟩

/-- When every attempt from `i` on fails, the retry loop runs all remaining
attempts and ends in the fallback call on the last attempt's exception. -/
lemma execRetryAux_all_fail (execf : π → Nat → Except E α) (fb : π → E → Except E α)
    (err : Nat → E) (wait : Nat) (p : π) :
    ∀ rem i, 1 ≤ rem →
      (∀ j, i ≤ j → j < i + rem → execf p j = .error (err j)) →
      execRetryAux execf fb wait p i rem
        = (failTrace p wait i rem, (fb p (err (i + rem - 1))).map some) := by
  intro rem
  induction rem with
  | zero => intro i h; omega
  | succ rem ih =>
    intro i _ hfail
    have hi : execf p i = .error (err i) := hfail i le_rfl (by omega)
    by_cases h0 : rem = 0
    · subst h0
      simp [execRetryAux, hi, failTrace]
    · obtain ⟨rem', rfl⟩ : ∃ rem', rem = rem' + 1 := ⟨rem - 1, by omega⟩
      have htl := ih (i + 1) (by omega) (fun j hj1 hj2 => hfail j (by omega) (by omega))
      have harith : i + 1 + (rem' + 1) - 1 = i + (rem' + 1 + 1) - 1 := by omega
      rw [harith] at htl
      rw [execRetryAux, hi]
      simp [htl, failTrace]

/-- The all-fail trace holds `rem` exec calls and one fallback call. -/
lemma failTrace_counts (p : π) (wait : Nat) :
    ∀ rem i, 1 ≤ rem →
      ((failTrace p wait i rem).countP (fun e => e.isExec) = rem
        ∧ (failTrace p wait i rem).countP (fun e => e.isFallback) = 1) := by
  intro rem
  induction rem with
  | zero => intro i h; omega
  | succ rem ih =>
    intro i _
    by_cases h0 : rem = 0
    · subst h0
      simp [failTrace, List.countP_cons, isExec_exec, isExec_fallback,
        isFallback_exec, isFallback_fallback]
    · obtain ⟨rem', rfl⟩ : ∃ rem', rem = rem' + 1 := ⟨rem - 1, by omega⟩
      have htl := ih (i + 1) (by omega)
      rw [show rem' + 1 + 1 = rem' + 2 from rfl, failTrace]
      by_cases hw : wait > 0 <;>
        simp [hw, List.countP_append, List.countP_cons, isExec_exec, isExec_sleep,
          isFallback_exec, isFallback_sleep, htl.1, htl.2]

/-- When the first success is at attempt `k`, the loop returns its value,
having made `k + 1 - i` exec calls and no fallback call. -/
lemma execRetryAux_first_success (execf : π → Nat → Except E α)
    (fb : π → E → Except E α) (err : Nat → E) (wait : Nat) (p : π) :
    ∀ rem i k a, i ≤ k → k < i + rem →
      (∀ j, i ≤ j → j < k → execf p j = .error (err j)) →
      execf p k = .ok a →
      ((execRetryAux execf fb wait p i rem).2 = .ok (some a)
        ∧ ((execRetryAux execf fb wait p i rem).1).countP (fun e => e.isExec) = k + 1 - i
        ∧ ((execRetryAux execf fb wait p i rem).1).countP (fun e => e.isFallback) = 0) := by
  intro rem
  induction rem with
  | zero => intro i k a h1 h2; omega
  | succ rem ih =>
    intro i k a hik hk hfail hok
    by_cases hi : k = i
    · subst hi
      simp [execRetryAux, hok, List.countP_cons, isExec_exec, isFallback_exec]
    · have hEi : execf p i = .error (err i) := hfail i le_rfl (by omega)
      have h0 : rem ≠ 0 := by omega
      have htl := ih (i + 1) k a (by omega) (by omega)
        (fun j hj1 hj2 => hfail j (by omega) hj2) hok
      rw [execRetryAux, hEi]
      by_cases hw : wait > 0 <;>
        simp [h0, hw, List.countP_append, List.countP_cons, isExec_exec, isExec_sleep,
          isFallback_exec, isFallback_sleep, htl.1, htl.2.1, htl.2.2] <;>
        omega

/-- C2 counterexample: a node constructed with `max_retries = 0` whose exec
always raises makes no exec attempt, never calls the fallback, and silently
returns Python `None` — the claim's "exec_fallback is invoked once, and its
default re-raises" fails at this input. -/
theorem c2_counterexample_zero_max_retries :
    Node_exec (fun (_ : Unit) i => (.error i : Except Nat Nat))
        exec_fallback_default 0 0 () = ([], .ok none)
    ∧ ((Node_exec (fun (_ : Unit) i => (.error i : Except Nat Nat))
          exec_fallback_default 0 0 ()).1).countP (fun e => e.isFallback) ≠ 1 :=
  ⟨rfl, by decide⟩

/-- C2 as amended (for `max_retries ≥ 1`).  When every attempt fails, exec is
invoked exactly `max_retries` times with the waits between consecutive
attempts as recorded by `failTrace`, then the fallback is invoked once with
the prep result and the last exception in place of a further exec call, and
with the default fallback the last exception propagates; when the first
success is at attempt `k`, its value is returned after `k + 1` exec calls and
the fallback is never invoked. -/
theorem c2_retry_exhaustion_and_fallback :
    ∀ (π E α : Type) (execf : π → Nat → Except E α) (fb : π → E → Except E α)
      (err : Nat → E) (p : π) (max_retries wait : Nat),
      (1 ≤ max_retries →
        (∀ j, j < max_retries → execf p j = .error (err j)) →
        Node_exec execf fb max_retries wait p
            = (failTrace p wait 0 max_retries, (fb p (err (max_retries - 1))).map some)
          ∧ (failTrace p wait 0 max_retries).countP (fun e => e.isExec) = max_retries
          ∧ (failTrace p wait 0 max_retries).countP (fun e => e.isFallback) = 1
          ∧ Node_exec execf exec_fallback_default max_retries wait p
              = (failTrace p wait 0 max_retries, .error (err (max_retries - 1))))
      ∧ (∀ k a, k < max_retries →
          (∀ j, j < k → execf p j = .error (err j)) →
          execf p k = .ok a →
          (Node_exec execf fb max_retries wait p).2 = .ok (some a)
          ∧ ((Node_exec execf fb max_retries wait p).1).countP
              (fun e => e.isExec) = k + 1
          ∧ ((Node_exec execf fb max_retries wait p).1).countP
              (fun e => e.isFallback) = 0) := by
  intro π E α execf fb err p max_retries wait
  constructor
  · intro h1 hfail
    have hf : ∀ j, 0 ≤ j → j < 0 + max_retries → execf p j = .error (err j) := by
      intro j _ hj
      exact hfail j (by omega)
    have hcnt := failTrace_counts p wait max_retries 0 h1
    refine ⟨?_, hcnt.1, hcnt.2, ?_⟩
    · have := execRetryAux_all_fail execf fb err wait p max_retries 0 h1 hf
      simpa [Node_exec] using this
    · have := execRetryAux_all_fail execf exec_fallback_default err wait p max_retries 0 h1 hf
      simpa [Node_exec, exec_fallback_default, Except.map] using this
  · intro k a hk hfail hok
    have := execRetryAux_first_success execf fb err wait p max_retries 0 k a
      (by omega) (by omega) (fun j _ hj => hfail j hj) hok
    simpa [Node_exec] using this

/-- C2 witness: both amended branches at concrete inputs — exhaustion with
`max_retries = 2, wait = 1` and an always-failing exec, and success at the
second attempt of another exec. -/
theorem c2_witness :
    (Node_exec (fun (_ : Unit) i => (.error i : Except Nat Nat))
          exec_fallback_default 2 1 ()
        = (failTrace () 1 0 2, (exec_fallback_default () 1).map some)
      ∧ (failTrace () 1 0 2).countP (fun e => e.isExec) = 2
      ∧ (failTrace () 1 0 2).countP (fun e => e.isFallback) = 1
      ∧ Node_exec (fun (_ : Unit) i => (.error i : Except Nat Nat))
          exec_fallback_default 2 1 ()
        = (failTrace () 1 0 2, .error 1))
    ∧ ((Node_exec (fun (_ : Unit) i => if i = 0 then .error 0 else (.ok 9 : Except Nat Nat))
          exec_fallback_default 2 1 ()).2 = .ok (some 9)
      ∧ ((Node_exec (fun (_ : Unit) i => if i = 0 then .error 0 else (.ok 9 : Except Nat Nat))
          exec_fallback_default 2 1 ()).1).countP (fun e => e.isExec) = 1 + 1
      ∧ ((Node_exec (fun (_ : Unit) i => if i = 0 then .error 0 else (.ok 9 : Except Nat Nat))
          exec_fallback_default 2 1 ()).1).countP (fun e => e.isFallback) = 0) :=
  ⟨(c2_retry_exhaustion_and_fallback Unit Nat Nat
      (fun _ i => .error i) exec_fallback_default (fun j => j) () 2 1).1
      (by decide) (fun j _ => rfl),
   (c2_retry_exhaustion_and_fallback Unit Nat Nat
      (fun _ i => if i = 0 then .error 0 else .ok 9) exec_fallback_default
      (fun j => j) () 2 1).2 1 9 (by decide) (fun j hj => by
        interval_cases j
        · rfl) rfl⟩

/-- Every event the retry loop emits is an exec, sleep or fallback event, and
the exec and fallback events carry exactly the prep result the loop was
given. -/
lemma execRetryAux_events (execf : π → Nat → Except E α) (fb : π → E → Except E α)
    (wait : Nat) (p : π) :
    ∀ rem i ev, ev ∈ (execRetryAux execf fb wait p i rem).1 →
      ev.isPrep = false ∧ ev.isPost = false
      ∧ (∀ q j, ev = NodeEv.execCall q j → q = p)
      ∧ (∀ q, ev = NodeEv.fallbackCall q → q = p) := by
  intro rem
  induction rem with
  | zero => intro i ev h; simp [execRetryAux] at h
  | succ rem ih =>
    intro i ev h
    rw [execRetryAux] at h
    cases hE : execf p i with
    | ok a =>
      rw [hE] at h
      simp at h
      subst h
      refine ⟨rfl, rfl, ?_, ?_⟩
      · intro q j heq
        injection heq with h1 _
        exact h1.symm
      · intro q heq
        simp at heq
    | error e =>
      rw [hE] at h
      by_cases h0 : rem = 0
      · simp [h0] at h
        rcases h with rfl | rfl
        · refine ⟨rfl, rfl, ?_, ?_⟩
          · intro q j heq
            injection heq with h1 _
            exact h1.symm
          · intro q heq
            simp at heq
        · refine ⟨rfl, rfl, ?_, ?_⟩
          · intro q j heq
            simp at heq
          · intro q heq
            injection heq with h1
            exact h1.symm
      · by_cases hw : wait > 0 <;> simp [h0, hw] at h
        · rcases h with rfl | rfl | h
          · refine ⟨rfl, rfl, ?_, ?_⟩
            · intro q j heq
              injection heq with h1 _
              exact h1.symm
            · intro q heq
              simp at heq
          · refine ⟨rfl, rfl, ?_, ?_⟩
            · intro q j heq
              simp at heq
            · intro q heq
              simp at heq
          · exact ih (i + 1) ev h
        · rcases h with rfl | h
          · refine ⟨rfl, rfl, ?_, ?_⟩
            · intro q j heq
              injection heq with h1 _
              exact h1.symm
            · intro q heq
              simp at heq
          · exact ih (i + 1) ev h

/-- The shape of a full node run for each outcome of its exec phase. -/
lemma node_run_shape (prep : σ → π) (execf : π → Nat → Except E α)
    (fb : π → E → Except E α) (post : σ → π → Option α → Option String)
    (m wait : Nat) (s : σ) :
    (∀ e, (Node_exec execf fb m wait (prep s)).2 = .error e →
      Node_run prep execf fb post m wait s
        = (NodeEv.prepCall :: (Node_exec execf fb m wait (prep s)).1, .error e))
    ∧ (∀ v, (Node_exec execf fb m wait (prep s)).2 = .ok v →
      Node_run prep execf fb post m wait s
        = (NodeEv.prepCall ::
            ((Node_exec execf fb m wait (prep s)).1 ++ [NodeEv.postCall (prep s)]),
           .ok (post s (prep s) v))) := by
  constructor <;> intro x hE <;> simp [Node_run, hE]

/-- C3.  In every single node run, prep happens exactly once and first; every
exec attempt (however many retries there are) receives exactly the prep
result; when the exec phase completes, post happens exactly once, last, with
that same prep result; when the exec phase raises, post never happens. -/
theorem c3_prep_once_post_once :
    ∀ (σ π E α : Type) (prep : σ → π) (execf : π → Nat → Except E α)
      (fb : π → E → Except E α) (post : σ → π → Option α → Option String)
      (max_retries wait : Nat) (s : σ),
      ((Node_run prep execf fb post max_retries wait s).1).countP (fun e => e.isPrep) = 1
      ∧ ((Node_run prep execf fb post max_retries wait s).1).head? = some NodeEv.prepCall
      ∧ (∀ q j, NodeEv.execCall q j ∈ (Node_run prep execf fb post max_retries wait s).1 →
          q = prep s)
      ∧ (∀ v, (Node_run prep execf fb post max_retries wait s).2 = .ok v →
          ((Node_run prep execf fb post max_retries wait s).1).countP (fun e => e.isPost) = 1
          ∧ ∃ l : List (NodeEv π), (Node_run prep execf fb post max_retries wait s).1
              = NodeEv.prepCall :: (l ++ [NodeEv.postCall (prep s)]))
      ∧ (∀ e, (Node_run prep execf fb post max_retries wait s).2 = .error e →
          ((Node_run prep execf fb post max_retries wait s).1).countP
            (fun e => e.isPost) = 0) := by
  intro σ π E α prep execf fb post m wait s
  have hev := execRetryAux_events execf fb wait (prep s) m 0
  have hPrep0 : ((Node_exec execf fb m wait (prep s)).1).countP (fun e => e.isPrep) = 0 :=
    List.countP_eq_zero.mpr (fun ev h => by simp [(hev ev h).1])
  have hPost0 : ((Node_exec execf fb m wait (prep s)).1).countP (fun e => e.isPost) = 0 :=
    List.countP_eq_zero.mpr (fun ev h => by simp [(hev ev h).2.1])
  rcases hE : (Node_exec execf fb m wait (prep s)).2 with e | v
  · have hshape := (node_run_shape prep execf fb post m wait s).1 e hE
    rw [hshape]
    refine ⟨?_, rfl, ?_, ?_, ?_⟩
    · simp [List.countP_cons, isPrep_prep, hPrep0]
    · intro q j h
      simp at h
      exact (hev _ h).2.2.1 q j rfl
    · intro v hv
      simp at hv
    · intro e' _
      simp [List.countP_cons, isPost_prep, hPost0]
  · have hshape := (node_run_shape prep execf fb post m wait s).2 v hE
    rw [hshape]
    refine ⟨?_, rfl, ?_, ?_, ?_⟩
    · simp [List.countP_cons, List.countP_append, isPrep_prep, isPrep_post, hPrep0]
    · intro q j h
      simp at h
      exact (hev _ h).2.2.1 q j rfl
    · intro v' _
      refine ⟨?_, ⟨(Node_exec execf fb m wait (prep s)).1, rfl⟩⟩
      simp [List.countP_cons, List.countP_append, isPost_prep, isPost_post, hPost0]
    · intro e' he
      simp at he

/-- One unfolding of the orchestration loop body on a registered node. -/
lemma orchAux_succ (g : Nat → Option (NodeTmpl σ P)) (p : P) (fuel obj tmpl : Nat)
    (st : OrchSt σ P) (last : Option String) (nd : NodeTmpl σ P)
    (hg : g tmpl = some nd) :
    orchAux g p (fuel + 1) (some (obj, tmpl)) st last
      = match nd.run ((setParams st obj p).heap obj) (setParams st obj p).shared with
        | .error e => some (.error e)
        | .ok (sh, a) =>
          match lookupSucc nd.successors (actionKey a) with
          | none => some (.ok (afterRun st obj p sh, a))
          | some t =>
            orchAux g p fuel (some ((afterRun st obj p sh).nextId, t))
              (copyNode (afterRun st obj p sh) t) a := by
  simp only [orchAux, hg]

/-- The loop body on an unregistered template index yields no result. -/
lemma orchAux_no_tmpl (g : Nat → Option (NodeTmpl σ P)) (p : P) (fuel obj tmpl : Nat)
    (st : OrchSt σ P) (last : Option String) (hg : g tmpl = none) :
    orchAux g p (fuel + 1) (some (obj, tmpl)) st last = none := by
  simp only [orchAux, hg]

/-- Soundness half of the C1 adequacy: a loop that returns did run exactly as
`FlowRun` describes — it stopped at the first action label with no registered
successor, returning that label. -/
lemma orchAux_sound (g : Nat → Option (NodeTmpl σ P)) (p : P) :
    ∀ fuel obj tmpl (st : OrchSt σ P) last st' a,
      orchAux g p fuel (some (obj, tmpl)) st last = some (.ok (st', a)) →
      FlowRun g p obj tmpl st st' a := by
  intro fuel
  induction fuel with
  | zero =>
    intro obj tmpl st last st' a h
    simp [orchAux] at h
  | succ fuel ih =>
    intro obj tmpl st last st' a h
    cases hg : g tmpl with
    | none =>
      rw [orchAux_no_tmpl g p fuel obj tmpl st last hg] at h
      simp at h
    | some nd =>
      rw [orchAux_succ g p fuel obj tmpl st last nd hg] at h
      split at h
      · simp at h
      · next sh a0 hr =>
        split at h
        · next hl =>
          simp only [Option.some.injEq, Except.ok.injEq, Prod.mk.injEq] at h
          obtain ⟨h1, h2⟩ := h
          subst h1
          subst h2
          exact FlowRun.stop hg hr hl
        · next t hl =>
          exact FlowRun.step hg hr hl (ih _ _ _ _ _ _ h)

/-- Completeness half of the C1 adequacy: every run `FlowRun` describes is an
actual return of the loop at some finite fuel, whatever `last_action` held on
entry. -/
lemma orchAux_complete (g : Nat → Option (NodeTmpl σ P)) (p : P) :
    ∀ obj tmpl (st st' : OrchSt σ P) a, FlowRun g p obj tmpl st st' a →
      ∀ last, ∃ fuel,
        orchAux g p fuel (some (obj, tmpl)) st last = some (.ok (st', a)) := by
  intro obj tmpl st st' a hrun
  induction hrun with
  | stop hg hr hl =>
    intro last
    refine ⟨1, ?_⟩
    rw [orchAux_succ g p 0 _ _ _ last _ hg]
    simp only [hr, hl]
  | step hg hr hl htail ih =>
    intro last
    obtain ⟨fuel, hf⟩ := ih _
    refine ⟨fuel + 1, ?_⟩
    rw [orchAux_succ g p fuel _ _ _ last _ hg]
    simp only [hr, hl]
    exact hf

/-- C1.  `Flow._orch` continues exactly while the action label returned by the
current node's post phase — with a `None`/falsy label replaced by the sentinel
`"default"` — has a registered successor, and stops at the first label with
none, returning that label: the fuel-indexed loop returns a result exactly
when the claim's run relation `FlowRun` holds of it (both directions).
`get_next_node` warns exactly when no successor matched and the node did have
registered successors. -/
theorem c1_flow_stops_at_first_unmatched_action :
    ∀ (σ P : Type) (g : Nat → Option (NodeTmpl σ P)) (p : P),
      (∀ fuel obj tmpl (st : OrchSt σ P) last st' a,
        orchAux g p fuel (some (obj, tmpl)) st last = some (.ok (st', a)) →
        FlowRun g p obj tmpl st st' a)
      ∧ (∀ obj tmpl (st st' : OrchSt σ P) a, FlowRun g p obj tmpl st st' a →
          ∀ last, ∃ fuel,
            orchAux g p fuel (some (obj, tmpl)) st last = some (.ok (st', a)))
      ∧ (∀ (nd : NodeTmpl σ P) (a : Option String),
          (get_next_node nd a).1 = lookupSucc nd.successors (actionKey a)
          ∧ ((get_next_node nd a).2 = true ↔
              lookupSucc nd.successors (actionKey a) = none ∧ nd.successors ≠ []))
      ∧ actionKey none = "default" ∧ actionKey (some "") = "default" := by
  intro σ P g p
  refine ⟨orchAux_sound g p, orchAux_complete g p, ?_, rfl, rfl⟩
  intro nd a
  refine ⟨rfl, ?_⟩
  simp only [get_next_node, Bool.and_eq_true, Option.isNone_iff_eq_none,
    Bool.not_eq_true']
  constructor
  · rintro ⟨h1, h2⟩
    refine ⟨h1, ?_⟩
    intro hnil
    rw [hnil] at h2
    simp at h2
  · rintro ⟨h1, h2⟩
    refine ⟨h1, ?_⟩
    cases hs : nd.successors with
    | nil => exact absurd hs h2
    | cons x xs => rfl

/-- C1 witness: the adequacy at a concrete one-node graph whose node returns
an action with no registered successor. -/
theorem c1_witness :
    FlowRun (fun t => if t = 0 then some (⟨fun _ s => .ok (s + 1, some "done"), []⟩ :
        NodeTmpl Nat Nat) else none) 7 1 0 ⟨0, fun _ => 5, 2⟩
      ⟨1, Function.update (fun _ => 5) 1 7, 2⟩ (some "done") :=
  (c1_flow_stops_at_first_unmatched_action Nat Nat
      (fun t => if t = 0 then some ⟨fun _ s => .ok (s + 1, some "done"), []⟩ else none)
      7).1 3 1 0 ⟨0, fun _ => 5, 2⟩ none
      ⟨1, Function.update (fun _ => 5) 1 7, 2⟩ (some "done") rfl

/-- Writes of the orchestration loop touch only object identifiers at or above
`N` when the entry object and every identifier from `st.nextId` on are at or
above `N`: the heap below `N` survives the whole run. -/
lemma orchAux_heap_below (g : Nat → Option (NodeTmpl σ P)) (p : P) (N : Nat) :
    ∀ fuel curr (st : OrchSt σ P) last res,
      orchAux g p fuel curr st last = some (.ok res) →
      (∀ o t, curr = some (o, t) → N ≤ o) → N ≤ st.nextId →
      ∀ i, i < N → res.1.heap i = st.heap i := by
  intro fuel
  induction fuel with
  | zero =>
    intro curr st last res h hc hN i hi
    cases curr with
    | none =>
      simp only [orchAux, Option.some.injEq, Except.ok.injEq] at h
      rw [← h]
    | some c =>
      simp [orchAux] at h
  | succ fuel ih =>
    intro curr st last res h hc hN i hi
    cases curr with
    | none =>
      simp only [orchAux, Option.some.injEq, Except.ok.injEq] at h
      rw [← h]
    | some c =>
      obtain ⟨obj, tmpl⟩ := c
      have hobj : N ≤ obj := hc obj tmpl rfl
      cases hg : g tmpl with
      | none =>
        rw [orchAux_no_tmpl g p fuel obj tmpl st last hg] at h
        simp at h
      | some nd =>
        rw [orchAux_succ g p fuel obj tmpl st last nd hg] at h
        split at h
        · simp at h
        · next sh a0 hr =>
          split at h
          · next hl =>
            simp only [Option.some.injEq, Except.ok.injEq] at h
            rw [← h]
            simp only [afterRun, setParams]
            exact Function.update_noteq (show i ≠ obj by omega) p st.heap
          · next t hl =>
            have hrec := ih (some ((afterRun st obj p sh).nextId, t))
              (copyNode (afterRun st obj p sh) t) a0 res h
              (fun o t' heq => by
                injection heq with h1
                injection h1 with h2 _
                rw [← h2]
                simp only [afterRun, setParams]
                omega)
              (by simp only [copyNode, afterRun, setParams]; omega) i hi
            rw [hrec]
            simp only [copyNode, afterRun, setParams]
            rw [Function.update_noteq (show i ≠ st.nextId by omega)]
            exact Function.update_noteq (show i ≠ obj by omega) p st.heap

/-- C8.  Parameter overrides during a flow run are applied only to the shallow
copies the run allocates: after the run completes, the `params` of every
object that existed before the run — in particular every registered node and
the configured start node — are exactly what they were before.  `BatchFlow`
runs `_orch` once per batch parameter set, so this also holds of each batch
iteration. -/
theorem c8_run_params_isolated :
    ∀ (σ P : Type) (g : Nat → Option (NodeTmpl σ P)) (start : Option Nat) (p : P)
      (fuel : Nat) (st : OrchSt σ P) (res : OrchSt σ P × Option String),
      orch g start p fuel st = some (.ok res) →
      ∀ i, i < st.nextId → res.1.heap i = st.heap i := by
  intro σ P g start p fuel st res h i hi
  cases start with
  | none =>
    simp only [orch, Option.some.injEq, Except.ok.injEq] at h
    rw [← h]
  | some t0 =>
    have hrec := orchAux_heap_below g p st.nextId fuel (some (st.nextId, t0))
      (copyNode st t0) none res h
      (fun o t heq => by
        injection heq with h1
        injection h1 with h2 _
        omega)
      (by simp only [copyNode]; omega) i hi
    rw [hrec]
    simp only [copyNode]
    exact Function.update_noteq (by omega) _ st.heap

/-- C8 witness: a concrete two-object run (the registered node is object 0,
its copy object 1); the registered node's params, 5, survive the run that
overrode the copy's params with 7. -/
theorem c8_witness :
    Function.update (Function.update (fun _ => (5 : Nat)) 1 5) 1 7 0 = 5 :=
  c8_run_params_isolated Nat Nat
    (fun t => if t = 0 then some ⟨fun _ s => .ok (s + 1, some "done"), []⟩ else none)
    (some 0) 7 3 ⟨0, fun _ => 5, 1⟩
    (⟨1, Function.update (Function.update (fun _ => 5) 1 5) 1 7, 2⟩, some "done")
    rfl 0 (by decide)

/-- C10.  `AsyncNode._run` raises `RuntimeError("Use run_async.")`, so as soon
as a synchronous flow's orchestration reaches an async node the run terminates
with that error rather than executing the node's lifecycle. -/
theorem c10_async_node_fails_in_sync_flow :
    ∀ (σ P : Type) (g : Nat → Option (NodeTmpl σ P)) (p : P) (fuel obj tmpl : Nat)
      (st : OrchSt σ P) (last : Option String) (succ : List (String × Nat)),
      g tmpl = some (asyncNodeTmpl succ) →
      (∀ sh : σ, AsyncNode_run sh = .error (.runtimeError "Use run_async."))
      ∧ orchAux g p (fuel + 1) (some (obj, tmpl)) st last
          = some (.error (.runtimeError "Use run_async.")) := by
  intro σ P g p fuel obj tmpl st last succ hg
  refine ⟨fun _ => rfl, ?_⟩
  simp [orchAux, hg, asyncNodeTmpl, AsyncNode_run]

/-- C10 witness: a concrete one-node synchronous orchestration over an async
node raises. -/
theorem c10_witness :
    (∀ sh : Nat, AsyncNode_run sh
        = (.error (.runtimeError "Use run_async.") : Except RunErr (Nat × Option String)))
    ∧ orchAux (fun t => if t = 0 then some (asyncNodeTmpl [("default", 0)]) else none)
        (7 : Nat) 4 (some (1, 0)) (⟨0, fun _ => 5, 1⟩ : OrchSt Nat Nat) none
        = some (.error (.runtimeError "Use run_async.")) :=
  c10_async_node_fails_in_sync_flow Nat Nat
    (fun t => if t = 0 then some (asyncNodeTmpl [("default", 0)]) else none)
    7 3 1 0 ⟨0, fun _ => 5, 1⟩ none [("default", 0)] rfl

end Spec2Proof
